import Mathlib

/-!
Verification of the streaming-platform repository core against its
natural-language specification.

The development shallowly embeds the three source files:
* `sp-dto/src/lib.rs` — the envelope codec (frame layout, `get_msg_meta`,
  `get_msg`, the `*_dto*` constructors, `Subscribes::traverse_to_keys`);
* `streaming-platform/src/simple/server.rs` — the hub (`WsServer::on_message`,
  `WsServer::on_close`, the clients thread of `start` / `start_with_link`);
* `src/proto.rs` — the client runtime (`MagicBall2::rpc`, control enums).

Modelling conventions:
* bytes are `Nat` (a wire byte is `< 256`; the framing arithmetic never
  depends on the bound, so it is not imposed on the type);
* the external JSON codec (`serde_json::to_vec` / `from_slice`) is a
  collaborator declared out of scope by the specification, so the embedded
  codec operations are parametric in encode/decode functions for the meta
  and payload types; decode failure is `Option.none`;
* Rust panics (out-of-bounds slicing, reading a `u32` from fewer than four
  remaining bytes) are made explicit: `sliceBytes` returns `none` exactly
  when Rust `&data[a..b]` would panic, and the codec surfaces that as the
  distinguished outcome `CodecErr.panicked`;
* `u32` truncating casts (`len as u32`) are `% 4294967296`; the `u32`
  addition `len + 4` inside `get_msg` is modelled by an explicit overflow
  branch that yields `panicked` when `len + 4 ≥ 2^32`, which is Rust's
  behaviour there in both build modes: debug panics on the add, release
  wraps the offset into 0..3 and the meta slice `&data[4..offset]` then
  panics because its start exceeds its end.
-/

/-! ## Byte-level primitives -/

/-- Big-endian 4-byte encoding of a `u32` value, as written by
`BufMut::put_u32` / `put_u32_be`. -/
def putU32 (n : Nat) : List Nat :=
  [n / 16777216 % 256, n / 65536 % 256, n / 256 % 256, n % 256]

/-- Big-endian read of the first four bytes, as done by `Buf::get_u32` /
`get_u32_be` on a cursor at position 0. -/
def getU32 (data : List Nat) : Nat :=
  data.getD 0 0 * 16777216 + data.getD 1 0 * 65536 + data.getD 2 0 * 256 + data.getD 3 0

/-- Rust slice `&data[a..b]`: `some` of the sub-list when the bounds are
in range, `none` when Rust would panic. -/
def sliceBytes (data : List Nat) (a b : Nat) : Option (List Nat) :=
  if a ≤ b ∧ b ≤ data.length then some ((data.take b).drop a) else none

@[simp]
theorem putU32_length (n : Nat) : (putU32 n).length = 4 := rfl

theorem getU32_putU32 (n : Nat) (rest : List Nat) (h : n < 4294967296) :
    getU32 (putU32 n ++ rest) = n := by
  simp only [putU32, getU32, List.cons_append, List.nil_append,
    List.getD_cons_zero, List.getD_cons_succ]
  omega

theorem take_append_len (l₁ l₂ : List Nat) (k : Nat) :
    (l₁ ++ l₂).take (l₁.length + k) = l₁ ++ l₂.take k := by
  induction l₁ with
  | nil => simp
  | cons a t ih => simp [List.length_cons, Nat.succ_add, ih]

theorem sliceBytes_mid (l₁ l₂ l₃ : List Nat) :
    sliceBytes (l₁ ++ l₂ ++ l₃) l₁.length (l₁.length + l₂.length) = some l₂ := by
  unfold sliceBytes
  rw [if_pos ⟨Nat.le_add_right _ _, by simp [List.length_append]⟩]
  rw [List.append_assoc, take_append_len, List.drop_left]
  have h2 : (l₂ ++ l₃).take l₂.length = l₂ := by simp
  rw [h2]

/-! ## Data model of `sp-dto/src/lib.rs` (current era) -/

/-- Opaque correlation id; the source uses a v4 UUID generated at request
construction time, modelled as an abstract value passed in by the caller. -/
abbrev Uuid := Nat

/-- A free-form JSON value (`serde_json::Value`), used for `auth_data`. -/
inductive JsonValue
  | null
  | boolean (b : Bool)
  | num (n : Int)
  | str (s : String)
  | arr (items : List JsonValue)
  | obj (fields : List (String × JsonValue))

/-- `Key { action, service, domain }`. -/
structure Key where
  action : String
  service : String
  domain : String
deriving DecidableEq

/-- `Participator`: `Component(addr, app_addr, client_addr)` or `Service(addr)`. -/
inductive Participator
  | Component (addr : String) (app_addr : Option String) (client_addr : Option String)
  | Service (addr : String)
deriving DecidableEq

/-- `RouteSpec`: `Simple` or `Client(Participator)`. -/
inductive RouteSpec
  | Simple
  | Client (p : Participator)
deriving DecidableEq

/-- `Route { source, spec, points }`. -/
structure Route where
  source : Participator
  spec : RouteSpec
  points : List Participator
deriving DecidableEq

/-- `RpcResult`: `Ok` or `Err`. -/
inductive RpcResult
  | Ok
  | Err
deriving DecidableEq

/-- `MsgType`: `Event`, `RpcRequest` or `RpcResponse(RpcResult)`. -/
inductive MsgType
  | Event
  | RpcRequest
  | RpcResponse (r : RpcResult)
deriving DecidableEq

/-- `Attachment { name, size }`. -/
structure Attachment where
  name : String
  size : Nat
deriving DecidableEq

/-- `MsgMeta`, the envelope metadata record. -/
structure MsgMeta where
  tx : String
  key : Key
  msg_type : MsgType
  correlation_id : Uuid
  route : Route
  payload_size : Nat
  auth_token : Option String
  auth_data : Option JsonValue
  attachments : List Attachment

/-! ## Envelope codec (`rpc_dto_with_attachments`, `get_msg_meta`, `get_msg`)

The codec is parametric in the external JSON encode/decode functions for
`MsgMeta` and for the payload type, per the specification's scoping of the
JSON library as an external collaborator. -/

/-- The `MsgMeta` record constructed inside `rpc_dto_with_attachments`:
`msg_type` is `RpcRequest`, `payload_size` is the serialized payload
length, and the attachment descriptors are `(name, bytes.len())` for the
inline `(name, bytes)` pairs, in order. -/
def rpcAttachmentsMsgMeta {T : Type} (payloadEnc : T → List Nat) (tx : String) (key : Key)
    (payload : T) (attachments : List (String × List Nat)) (route : Route)
    (auth_token : Option String) (auth_data : Option JsonValue)
    (correlation_id : Uuid) : MsgMeta :=
  { tx := tx
    key := key
    msg_type := MsgType.RpcRequest
    correlation_id := correlation_id
    route := route
    payload_size := (payloadEnc payload).length
    auth_token := auth_token
    auth_data := auth_data
    attachments := attachments.map (fun p => { name := p.1, size := p.2.length }) }

/-- `rpc_dto_with_attachments`: 4-byte big-endian meta length
(`meta.len() as u32`, a truncating cast), then the serialized meta, the
serialized payload, and the concatenated attachment bytes. -/
def rpc_dto_with_attachments {T : Type} (metaEnc : MsgMeta → List Nat)
    (payloadEnc : T → List Nat) (tx : String) (key : Key) (payload : T)
    (attachments : List (String × List Nat)) (route : Route)
    (auth_token : Option String) (auth_data : Option JsonValue)
    (correlation_id : Uuid) : List Nat :=
  let msg_meta := rpcAttachmentsMsgMeta payloadEnc tx key payload attachments route
    auth_token auth_data correlation_id
  let metaBytes := metaEnc msg_meta
  putU32 (metaBytes.length % 4294967296) ++ metaBytes ++ payloadEnc payload ++
    (attachments.map Prod.snd).flatten

/-- Failure outcomes of the embedded codec. The source only ever produces
`metaDecodeError` / `payloadDecodeError` (a returned `serde_json::Error`)
or `panicked` (out-of-bounds slicing); `invalidLength` and
`truncatedAttachment` are the error kinds named by the specification,
present in the type so that statements about them can be made, and provably
never produced by the code. -/
inductive CodecErr
  | invalidLength
  | metaDecodeError
  | payloadDecodeError
  | truncatedAttachment
  | panicked
deriving DecidableEq

/-- `get_msg_meta`: read the 4-byte meta length, slice out the meta bytes
(`&data[4..len + 4]`, panicking when out of range), and JSON-decode them. -/
def get_msg_meta (metaDec : List Nat → Option MsgMeta) (data : List Nat) :
    Except CodecErr MsgMeta :=
  if data.length < 4 then Except.error CodecErr.panicked
  else
    match sliceBytes data 4 (getU32 data + 4) with
    | none => Except.error CodecErr.panicked
    | some metaBytes =>
      match metaDec metaBytes with
      | some m => Except.ok m
      | none => Except.error CodecErr.metaDecodeError

/-- The attachment-reading loop at the end of `get_msg`: slice
`attachment.size` bytes per descriptor, advancing the offset. -/
def readAttachments (data : List Nat) (offset : Nat) :
    List Attachment → Except CodecErr (List (String × List Nat))
  | [] => Except.ok []
  | a :: rest =>
    match sliceBytes data offset (offset + a.size) with
    | none => Except.error CodecErr.panicked
    | some bytes =>
      match readAttachments data (offset + a.size) rest with
      | Except.ok l => Except.ok ((a.name, bytes) :: l)
      | Except.error e => Except.error e

/-- `get_msg`: decode the meta, then the payload slice
`&data[meta_offset..meta_offset + payload_size]`, then the attachments.
Unlike `get_msg_meta`, the source computes `msg_meta_offset` as
`(len + 4) as usize` with `len : u32`, so the addition `len + 4` is a
`u32` addition: for `len ≥ 2^32 - 4` it panics in debug builds and in
release builds wraps to an offset in 0..3, on which the meta slice
`&data[4..offset]` panics (start past end). Both behaviours are a panic,
modelled by the explicit overflow branch below. -/
def get_msg {T : Type} (metaDec : List Nat → Option MsgMeta)
    (payloadDec : List Nat → Option T) (data : List Nat) :
    Except CodecErr (MsgMeta × T × List (String × List Nat)) :=
  if data.length < 4 then Except.error CodecErr.panicked
  else if 4294967296 ≤ getU32 data + 4 then Except.error CodecErr.panicked
  else
    match sliceBytes data 4 (getU32 data + 4) with
    | none => Except.error CodecErr.panicked
    | some metaBytes =>
      match metaDec metaBytes with
      | none => Except.error CodecErr.metaDecodeError
      | some msg_meta =>
        match sliceBytes data (getU32 data + 4) (getU32 data + 4 + msg_meta.payload_size) with
        | none => Except.error CodecErr.panicked
        | some payloadBytes =>
          match payloadDec payloadBytes with
          | none => Except.error CodecErr.payloadDecodeError
          | some payload =>
            match readAttachments data (getU32 data + 4 + msg_meta.payload_size)
                msg_meta.attachments with
            | Except.ok attachments => Except.ok (msg_meta, payload, attachments)
            | Except.error e => Except.error e

/-! ## Round-trip lemmas for the codec -/

theorem sliceBytes_eq_mid (data l₁ l₂ l₃ : List Nat) (a b : Nat)
    (hdata : data = l₁ ++ (l₂ ++ l₃)) (ha : a = l₁.length)
    (hb : b = l₁.length + l₂.length) :
    sliceBytes data a b = some l₂ := by
  subst hdata ha hb
  have h := sliceBytes_mid l₁ l₂ l₃
  simpa [List.append_assoc] using h

theorem readAttachments_app (pre : List Nat) (atts : List (String × List Nat)) :
    readAttachments (pre ++ (atts.map Prod.snd).flatten) pre.length
      (atts.map (fun p => ({ name := p.1, size := p.2.length } : Attachment)))
      = Except.ok atts := by
  induction atts generalizing pre with
  | nil => simp [readAttachments]
  | cons q rest ih =>
    simp only [List.map_cons, List.flatten_cons]
    unfold readAttachments
    have hs : sliceBytes (pre ++ (q.2 ++ (rest.map Prod.snd).flatten)) pre.length
        (pre.length + q.2.length) = some q.2 :=
      sliceBytes_eq_mid _ pre q.2 ((rest.map Prod.snd).flatten) _ _ rfl rfl rfl
    have h2 : readAttachments (pre ++ (q.2 ++ (rest.map Prod.snd).flatten))
        (pre.length + q.2.length)
        (rest.map (fun p => ({ name := p.1, size := p.2.length } : Attachment)))
        = Except.ok rest := by
      have h3 := ih (pre ++ q.2)
      simpa [List.append_assoc, List.length_append] using h3
    simp [hs, h2]

theorem readAttachments_eq (data pre : List Nat) (offset : Nat)
    (atts : List (String × List Nat))
    (hdata : data = pre ++ (atts.map Prod.snd).flatten) (hoff : offset = pre.length) :
    readAttachments data offset
      (atts.map (fun p => ({ name := p.1, size := p.2.length } : Attachment)))
      = Except.ok atts := by
  subst hdata hoff
  exact readAttachments_app pre atts

/-- `get_msg` applied to a frame of the shape produced by the `*_dto*`
constructors recovers the meta, the payload and the attachment pairs. -/
theorem get_msg_frame {T : Type} (metaDec : List Nat → Option MsgMeta)
    (payloadDec : List Nat → Option T) (mB pB : List Nat)
    (atts : List (String × List Nat)) (m : MsgMeta) (p : T)
    (hm : metaDec mB = some m)
    (hplen : m.payload_size = pB.length)
    (hatts : m.attachments = atts.map (fun q => ({ name := q.1, size := q.2.length } : Attachment)))
    (hp : payloadDec pB = some p)
    (hlen : mB.length + 4 < 4294967296) :
    get_msg metaDec payloadDec
      (putU32 (mB.length % 4294967296) ++ mB ++ pB ++ (atts.map Prod.snd).flatten)
      = Except.ok (m, p, atts) := by
  have hlt : mB.length < 4294967296 := by omega
  rw [Nat.mod_eq_of_lt hlt]
  have hnot4 : ¬ ((putU32 mB.length ++ mB ++ pB ++ (atts.map Prod.snd).flatten).length < 4) := by
    simp [List.length_append]
  have hget : getU32 (putU32 mB.length ++ mB ++ pB ++ (atts.map Prod.snd).flatten)
      = mB.length := by
    have h := getU32_putU32 mB.length (mB ++ (pB ++ (atts.map Prod.snd).flatten)) hlt
    simpa [List.append_assoc] using h
  have hslice1 : sliceBytes (putU32 mB.length ++ mB ++ pB ++ (atts.map Prod.snd).flatten)
      4 (mB.length + 4) = some mB := by
    refine sliceBytes_eq_mid _ (putU32 mB.length) mB (pB ++ (atts.map Prod.snd).flatten)
      _ _ ?_ ?_ ?_
    · simp [List.append_assoc]
    · simp
    · simp; omega
  have hslice2 : sliceBytes (putU32 mB.length ++ mB ++ pB ++ (atts.map Prod.snd).flatten)
      (mB.length + 4) (mB.length + 4 + pB.length) = some pB := by
    refine sliceBytes_eq_mid _ (putU32 mB.length ++ mB) pB ((atts.map Prod.snd).flatten)
      _ _ ?_ ?_ ?_
    · simp [List.append_assoc]
    · simp; omega
    · simp; omega
  have hread : readAttachments (putU32 mB.length ++ mB ++ pB ++ (atts.map Prod.snd).flatten)
      (mB.length + 4 + pB.length)
      (atts.map (fun q => ({ name := q.1, size := q.2.length } : Attachment)))
      = Except.ok atts := by
    refine readAttachments_eq _ (putU32 mB.length ++ mB ++ pB) _ atts ?_ ?_
    · simp [List.append_assoc]
    · simp; omega
  unfold get_msg
  rw [if_neg hnot4]
  simp only [hget]
  rw [if_neg (by omega : ¬ 4294967296 ≤ mB.length + 4)]
  simp only [hslice1, hm, hplen, hslice2, hp, hatts, hread]

/-- C1: for every meta field set (tx, key, route, auth fields), every
serializable payload, and every ordered list of (name, bytes) attachments,
`get_msg` applied to the buffer produced by `rpc_dto_with_attachments`
returns a `MsgMeta` with the same field values, the same payload value,
and the same (name, bytes) attachment pairs in the same order, byte-exactly.
The external JSON codec is a parameter; the hypotheses are exactly its
contract (decode inverts encode on the encoded meta and payload), plus the
requirement that the serialized meta length plus the 4-byte prefix fits a
`u32` (beyond that bound the source's `u32` offset addition fails). -/
theorem C1_rpc_dto_with_attachments_roundtrip {T : Type}
    (metaEnc : MsgMeta → List Nat) (metaDec : List Nat → Option MsgMeta)
    (payloadEnc : T → List Nat) (payloadDec : List Nat → Option T)
    (tx : String) (key : Key) (payload : T)
    (attachments : List (String × List Nat)) (route : Route)
    (auth_token : Option String) (auth_data : Option JsonValue) (cid : Uuid)
    (hmeta : metaDec (metaEnc (rpcAttachmentsMsgMeta payloadEnc tx key payload
      attachments route auth_token auth_data cid))
      = some (rpcAttachmentsMsgMeta payloadEnc tx key payload attachments route
        auth_token auth_data cid))
    (hpay : payloadDec (payloadEnc payload) = some payload)
    (hlen : (metaEnc (rpcAttachmentsMsgMeta payloadEnc tx key payload attachments
      route auth_token auth_data cid)).length + 4 < 4294967296) :
    get_msg metaDec payloadDec (rpc_dto_with_attachments metaEnc payloadEnc tx key
      payload attachments route auth_token auth_data cid)
      = Except.ok (rpcAttachmentsMsgMeta payloadEnc tx key payload attachments route
          auth_token auth_data cid, payload, attachments) := by
  unfold rpc_dto_with_attachments
  exact get_msg_frame metaDec payloadDec _ _ attachments _ payload hmeta rfl rfl hpay hlen

/-- Concrete instances for witnesses: a trivial meta/payload codec pair that
satisfies the round-trip contract at the inputs used below. -/
def wKey : Key := { action := "ping", service := "", domain := "" }

def wRoute : Route :=
  { source := Participator.Service "a.b", spec := RouteSpec.Simple, points := [] }

def wNatEnc : Nat → List Nat := fun _ => [123]

def wMeta1 : MsgMeta :=
  rpcAttachmentsMsgMeta wNatEnc "a.b" wKey 0 [("a", [1, 2]), ("b", [3])] wRoute
    none none 7

def wMetaEnc : MsgMeta → List Nat := fun _ => [5, 6]

def wMetaDec : List Nat → Option MsgMeta := fun _ => some wMeta1

def wNatDec : List Nat → Option Nat := fun _ => some 0

theorem C1_rpc_dto_with_attachments_roundtrip_witness :
    get_msg wMetaDec wNatDec (rpc_dto_with_attachments wMetaEnc wNatEnc "a.b" wKey 0
      [("a", [1, 2]), ("b", [3])] wRoute none none 7)
      = Except.ok (wMeta1, 0, [("a", [1, 2]), ("b", [3])]) :=
  C1_rpc_dto_with_attachments_roundtrip wMetaEnc wMetaDec wNatEnc wNatDec "a.b" wKey 0
    [("a", [1, 2]), ("b", [3])] wRoute none none 7 rfl rfl
    (by show (2 : Nat) + 4 < 4294967296; norm_num)

/-! ## Failure modes of the codec (claim C6) -/

theorem sliceBytes_none (data : List Nat) (a b : Nat) (h : data.length < b) :
    sliceBytes data a b = none := by
  unfold sliceBytes
  rw [if_neg]
  intro hc
  omega

theorem sliceBytes_some_le (data : List Nat) (a b : Nat) (x : List Nat)
    (h : sliceBytes data a b = some x) : a ≤ b ∧ b ≤ data.length := by
  unfold sliceBytes at h
  split at h
  · assumption
  · cases h

/-- Summed attachment sizes, as accumulated by the loops in the source
(`attachments_len` / the `get_msg` offset arithmetic). -/
def attachmentsLen : List Attachment → Nat
  | [] => 0
  | a :: rest => a.size + attachmentsLen rest

theorem getD_take (l : List Nat) (k i : Nat) (h : i < k) :
    (l.take k).getD i 0 = l.getD i 0 := by
  induction l generalizing k i with
  | nil => simp
  | cons a t ih =>
    cases k with
    | zero => omega
    | succ k2 =>
      cases i with
      | zero => simp
      | succ i2 =>
        simp only [List.take_succ_cons, List.getD_cons_succ]
        exact ih k2 i2 (by omega)

theorem getU32_take (data : List Nat) (k : Nat) (h : 4 ≤ k) :
    getU32 (data.take k) = getU32 data := by
  unfold getU32
  rw [getD_take data k 0 (by omega), getD_take data k 1 (by omega),
    getD_take data k 2 (by omega), getD_take data k 3 (by omega)]

theorem get_msg_meta_short (metaDec : List Nat → Option MsgMeta) (data : List Nat)
    (h : data.length < getU32 data + 4) :
    get_msg_meta metaDec data = Except.error CodecErr.panicked := by
  unfold get_msg_meta
  by_cases h4 : data.length < 4
  · rw [if_pos h4]
  · rw [if_neg h4]
    simp only [sliceBytes_none data 4 (getU32 data + 4) (by omega)]

theorem get_msg_short {T : Type} (metaDec : List Nat → Option MsgMeta)
    (payloadDec : List Nat → Option T) (data : List Nat)
    (h : data.length < getU32 data + 4) :
    get_msg metaDec payloadDec data = Except.error CodecErr.panicked := by
  unfold get_msg
  by_cases h4 : data.length < 4
  · rw [if_pos h4]
  · rw [if_neg h4]
    by_cases hw : 4294967296 ≤ getU32 data + 4
    · rw [if_pos hw]
    · rw [if_neg hw]
      simp only [sliceBytes_none data 4 (getU32 data + 4) (by omega)]

theorem readAttachments_overflow (data : List Nat) (offset : Nat)
    (atts : List Attachment) (hoff : offset ≤ data.length)
    (hover : data.length < offset + attachmentsLen atts) :
    readAttachments data offset atts = Except.error CodecErr.panicked := by
  induction atts generalizing offset with
  | nil => simp [attachmentsLen] at hover; omega
  | cons a rest ih =>
    unfold readAttachments
    by_cases hb : offset + a.size ≤ data.length
    · have hs : sliceBytes data offset (offset + a.size)
          = some ((data.take (offset + a.size)).drop offset) := by
        unfold sliceBytes
        rw [if_pos ⟨by omega, hb⟩]
      rw [hs, ih (offset + a.size) hb (by simp [attachmentsLen] at hover ⊢; omega)]
    · rw [sliceBytes_none data offset (offset + a.size) (by omega)]

theorem readAttachments_error (data : List Nat) (offset : Nat)
    (atts : List Attachment) (e : CodecErr)
    (h : readAttachments data offset atts = Except.error e) : e = CodecErr.panicked := by
  induction atts generalizing offset with
  | nil => simp [readAttachments] at h
  | cons a rest ih =>
    unfold readAttachments at h
    split at h
    · cases h; rfl
    · split at h
      · cases h
      · cases h
        exact ih _ (by assumption)

theorem get_msg_meta_take (metaDec : List Nat → Option MsgMeta) (data : List Nat)
    (h : getU32 data + 4 ≤ data.length) :
    get_msg_meta metaDec (data.take (getU32 data + 4)) = get_msg_meta metaDec data := by
  have hg : getU32 (data.take (getU32 data + 4)) = getU32 data :=
    getU32_take data (getU32 data + 4) (by omega)
  have hlen : (data.take (getU32 data + 4)).length = getU32 data + 4 := by
    simp only [List.length_take]
    omega
  unfold get_msg_meta
  rw [if_neg (by omega), if_neg (by omega)]
  simp only [hg]
  have hs : sliceBytes (data.take (getU32 data + 4)) 4 (getU32 data + 4)
      = sliceBytes data 4 (getU32 data + 4) := by
    unfold sliceBytes
    rw [if_pos ⟨by omega, by omega⟩, if_pos ⟨by omega, by omega⟩, List.take_take]
    simp
  rw [hs]

theorem get_msg_meta_ne_invalidLength (metaDec : List Nat → Option MsgMeta)
    (data : List Nat) :
    get_msg_meta metaDec data ≠ Except.error CodecErr.invalidLength := by
  unfold get_msg_meta
  split
  · simp
  · split
    · simp
    · split <;> simp

theorem get_msg_ne_spec_errors {T : Type} (metaDec : List Nat → Option MsgMeta)
    (payloadDec : List Nat → Option T) (data : List Nat) :
    get_msg metaDec payloadDec data ≠ Except.error CodecErr.invalidLength
    ∧ get_msg metaDec payloadDec data ≠ Except.error CodecErr.truncatedAttachment := by
  unfold get_msg
  split
  · simp
  · split
    · simp
    · split
      · simp
      · split
        · simp
        · split
          · simp
          · split
            · simp
            · split
              · simp
              · rename_i e heq
                have he : e = CodecErr.panicked := readAttachments_error _ _ _ _ heq
                subst he
                simp

theorem get_msg_truncated_attachments {T : Type} (metaDec : List Nat → Option MsgMeta)
    (payloadDec : List Nat → Option T) (data mB pB : List Nat) (m : MsgMeta) (p : T)
    (hs : sliceBytes data 4 (getU32 data + 4) = some mB)
    (hm : metaDec mB = some m)
    (hp : sliceBytes data (getU32 data + 4) (getU32 data + 4 + m.payload_size) = some pB)
    (hpd : payloadDec pB = some p)
    (hover : data.length < getU32 data + 4 + m.payload_size + attachmentsLen m.attachments) :
    get_msg metaDec payloadDec data = Except.error CodecErr.panicked := by
  have h1 := sliceBytes_some_le data 4 (getU32 data + 4) mB hs
  have h2 := sliceBytes_some_le data (getU32 data + 4)
    (getU32 data + 4 + m.payload_size) pB hp
  unfold get_msg
  rw [if_neg (by omega)]
  by_cases hw : 4294967296 ≤ getU32 data + 4
  · rw [if_pos hw]
  · rw [if_neg hw]
    simp only [hs, hm, hp, hpd]
    rw [readAttachments_overflow data (getU32 data + 4 + m.payload_size) m.attachments
      (by omega) (by omega)]

/-- C6 (amended): the codec operations are not total with explicit errors.
For every buffer in which meta_len + 4 exceeds the buffer length,
`get_msg_meta` and `get_msg` fail by an out-of-bounds panic, and never
return an `InvalidLength` error; `get_msg_meta` (peek) reads only bytes
0..4+meta_len (its result on such a buffer equals its result on the buffer
truncated to that range); for every buffer whose summed attachment sizes
exceed the bytes remaining after the payload, `get_msg` fails by an
out-of-bounds panic, and never returns a `TruncatedAttachment` error. -/
theorem C6_codec_failure_modes {T : Type} (metaDec : List Nat → Option MsgMeta)
    (payloadDec : List Nat → Option T) :
    (∀ data : List Nat, data.length < getU32 data + 4 →
      get_msg_meta metaDec data = Except.error CodecErr.panicked
      ∧ get_msg metaDec payloadDec data = Except.error CodecErr.panicked)
    ∧ (∀ data : List Nat, getU32 data + 4 ≤ data.length →
      get_msg_meta metaDec (data.take (getU32 data + 4)) = get_msg_meta metaDec data)
    ∧ (∀ (data mB pB : List Nat) (m : MsgMeta) (p : T),
      sliceBytes data 4 (getU32 data + 4) = some mB →
      metaDec mB = some m →
      sliceBytes data (getU32 data + 4) (getU32 data + 4 + m.payload_size) = some pB →
      payloadDec pB = some p →
      data.length < getU32 data + 4 + m.payload_size + attachmentsLen m.attachments →
      get_msg metaDec payloadDec data = Except.error CodecErr.panicked)
    ∧ (∀ data : List Nat,
      get_msg_meta metaDec data ≠ Except.error CodecErr.invalidLength
      ∧ get_msg metaDec payloadDec data ≠ Except.error CodecErr.invalidLength
      ∧ get_msg metaDec payloadDec data ≠ Except.error CodecErr.truncatedAttachment) := by
  refine ⟨?_, ?_, ?_, ?_⟩
  · intro data h
    exact ⟨get_msg_meta_short metaDec data h, get_msg_short metaDec payloadDec data h⟩
  · intro data h
    exact get_msg_meta_take metaDec data h
  · intro data mB pB m p hs hm hp hpd hover
    exact get_msg_truncated_attachments metaDec payloadDec data mB pB m p hs hm hp hpd hover
  · intro data
    exact ⟨get_msg_meta_ne_invalidLength metaDec data,
      (get_msg_ne_spec_errors metaDec payloadDec data).1,
      (get_msg_ne_spec_errors metaDec payloadDec data).2⟩

/-- A meta decoder that always fails, used only in concrete evaluations
where the decoder is never reached. -/
def noMetaDec : List Nat → Option MsgMeta := fun _ => none

/-- C6 counterexample: on the 4-byte buffer `[0,0,0,100]` the declared
meta length is 100 and `meta_len + 4 > buffer.len()`, and `get_msg_meta`
fails with an out-of-bounds panic (the unchecked slice `&data[4..104]`),
not with the `InvalidLength` error the claim requires. -/
theorem C6_counterexample :
    get_msg_meta noMetaDec [0, 0, 0, 100] = Except.error CodecErr.panicked
    ∧ (Except.error CodecErr.panicked : Except CodecErr MsgMeta)
      ≠ Except.error CodecErr.invalidLength := by
  constructor
  · rfl
  · simp

theorem C6_codec_failure_modes_witness :
    get_msg_meta wMetaDec [0, 0, 0, 100] = Except.error CodecErr.panicked
    ∧ get_msg_meta wMetaDec (List.take (getU32 [0, 0, 0, 0, 7] + 4) [0, 0, 0, 0, 7])
      = get_msg_meta wMetaDec [0, 0, 0, 0, 7]
    ∧ get_msg wMetaDec wNatDec [0, 0, 0, 0, 9] = Except.error CodecErr.panicked :=
  ⟨((C6_codec_failure_modes wMetaDec wNatDec).1 [0, 0, 0, 100] (by decide)).1,
   (C6_codec_failure_modes wMetaDec wNatDec).2.1 [0, 0, 0, 0, 7] (by decide),
   (C6_codec_failure_modes wMetaDec wNatDec).2.2.1 [0, 0, 0, 0, 9] [] [9] wMeta1 0
     (by decide) rfl (by decide) rfl (by decide)⟩

/-! ## Subscribes and `traverse_to_keys` (claim C9)

Rust `HashMap`s are embedded as association lists without duplicate keys
(the no-duplicate condition appears as a `Nodup` hypothesis on the key
column where a statement needs it); `HashMap::get_mut` + `Vec::push` /
`HashMap::insert` become `alistPush`. -/

/-- `HashMap::get`. -/
def alistGet {K V : Type} [DecidableEq K] : List (K × V) → K → Option V
  | [], _ => none
  | p :: rest, k => if p.1 = k then some p.2 else alistGet rest k

/-- The loop body of `traverse_to_keys`: `match res.get_mut(&key) { Some(addrs)
=> addrs.push(addr), None => res.insert(key, vec![addr]) }`. -/
def alistPush {K A : Type} [DecidableEq K] (l : List (K × List A)) (k : K) (a : A) :
    List (K × List A) :=
  match alistGet l k with
  | some _ => l.map (fun p => if p.1 = k then (p.1, p.2 ++ [a]) else p)
  | none => l ++ [(k, [a])]

/-- One category of the `ByAddr` branch of `traverse_to_keys`: for each
`(addr, keys)` entry, for each key, push `addr` onto that key's list. -/
def traverseCat (m : List (String × List Key)) : List (Key × List String) :=
  m.foldl (fun acc p => p.2.foldl (fun acc2 k => alistPush acc2 k p.1) acc) []

/-- `Subscribes`: `ByAddr(events, rpcs, rpc_responses)` or `ByKey(...)`. -/
inductive Subscribes
  | ByAddr (event_subscribes rpc_subscribes rpc_response_subscribes :
      List (String × List Key))
  | ByKey (event_subscribes rpc_subscribes rpc_response_subscribes :
      List (Key × List String))

/-- `Subscribes::traverse_to_keys`: invert each of the three `ByAddr` maps;
return the three `ByKey` maps unchanged. -/
def Subscribes.traverse_to_keys : Subscribes →
    List (Key × List String) × List (Key × List String) × List (Key × List String)
  | .ByAddr e r rr => (traverseCat e, traverseCat r, traverseCat rr)
  | .ByKey e r rr => (e, r, rr)

/-- Number of occurrences of `x` in a list. -/
def occ {α : Type} [DecidableEq α] (x : α) : List α → Nat
  | [] => 0
  | y :: rest => (if x = y then 1 else 0) + occ x rest

/-- Multiplicity of `a` in the list stored under key `k` (0 when absent). -/
def cntA {K : Type} [DecidableEq K] (l : List (K × List String)) (k : K)
    (a : String) : Nat :=
  occ a ((alistGet l k).getD [])

theorem occ_append {α : Type} [DecidableEq α] (x : α) (l₁ l₂ : List α) :
    occ x (l₁ ++ l₂) = occ x l₁ + occ x l₂ := by
  induction l₁ with
  | nil => simp [occ]
  | cons y t ih => simp [occ, ih]; omega

theorem alistGet_append {K V : Type} [DecidableEq K] (l₁ l₂ : List (K × V)) (k : K) :
    alistGet (l₁ ++ l₂) k
      = match alistGet l₁ k with
        | some v => some v
        | none => alistGet l₂ k := by
  induction l₁ with
  | nil => simp [alistGet]
  | cons p rest ih =>
    by_cases h : p.1 = k <;> simp [alistGet, h, ih]

theorem alistGet_update {K V : Type} [DecidableEq K] (l : List (K × V)) (k₀ k : K)
    (g : V → V) :
    alistGet (l.map (fun p => if p.1 = k₀ then (p.1, g p.2) else p)) k
      = if k = k₀ then (alistGet l k).map g else alistGet l k := by
  induction l with
  | nil => simp [alistGet]
  | cons p rest ih =>
    by_cases h1 : p.1 = k₀ <;> by_cases h2 : p.1 = k
    · have hk : k = k₀ := by rw [← h2, h1]
      simp [alistGet, h1, h2, hk]
    · have hk : ¬ k = k₀ := by
        intro hc
        exact h2 (by rw [h1, ← hc])
      have hk2 : ¬ k₀ = k := fun hc => hk hc.symm
      simp [alistGet, h1, h2, hk, hk2, ih]
    · have hk : ¬ k = k₀ := by
        intro hc
        exact h1 (by rw [h2, hc])
      simp [alistGet, h1, h2, hk, ih]
    · simp only [List.map_cons, if_neg h1, alistGet, if_neg h2, ih]

theorem cnt_push {K : Type} [DecidableEq K] (l : List (K × List String)) (k₀ k : K)
    (a₀ a : String) :
    cntA (alistPush l k₀ a₀) k a
      = cntA l k a + (if k = k₀ then (if a = a₀ then 1 else 0) else 0) := by
  unfold alistPush
  cases h : alistGet l k₀ with
  | none =>
    unfold cntA
    rw [alistGet_append]
    by_cases hk : k = k₀
    · subst hk
      rw [h]
      simp [alistGet, occ]
    · have hk2 : ¬ k₀ = k := fun hc => hk hc.symm
      cases hg : alistGet l k <;> simp [hg, alistGet, hk, hk2]
  | some v =>
    unfold cntA
    rw [alistGet_update l k₀ k (fun q => q ++ [a₀])]
    by_cases hk : k = k₀
    · subst hk
      rw [h]
      simp [occ_append, occ]
    · simp [hk]

theorem cnt_foldl_push {K : Type} [DecidableEq K] (keys : List K) (addr0 : String)
    (acc : List (K × List String)) (k : K) (a : String) :
    cntA (keys.foldl (fun acc2 key => alistPush acc2 key addr0) acc) k a
      = cntA acc k a + (if a = addr0 then occ k keys else 0) := by
  induction keys generalizing acc with
  | nil => simp [occ]
  | cons key keys ih =>
    simp only [List.foldl_cons, ih (alistPush acc key addr0), cnt_push, occ]
    by_cases ha : a = addr0 <;> by_cases hkk : k = key <;>
      (simp [ha, hkk]; try omega)

/-- Total multiplicity of key `k` registered under address `a` in a `ByAddr`
map, summed over all entries for `a` (the entries a `HashMap` iteration
would visit). -/
def addrKeyCount {K : Type} [DecidableEq K] : List (String × List K) → String → K → Nat
  | [], _, _ => 0
  | p :: rest, a, k => (if a = p.1 then occ k p.2 else 0) + addrKeyCount rest a k

theorem cnt_traverseCat_aux (m : List (String × List Key))
    (acc : List (Key × List String)) (k : Key) (a : String) :
    cntA (m.foldl (fun acc2 p => p.2.foldl (fun acc3 key => alistPush acc3 key p.1) acc2) acc) k a
      = cntA acc k a + addrKeyCount m a k := by
  induction m generalizing acc with
  | nil => simp [addrKeyCount]
  | cons p rest ih =>
    simp only [List.foldl_cons, ih, cnt_foldl_push, addrKeyCount]
    omega

theorem addrKeyCount_not_mem {K : Type} [DecidableEq K] (m : List (String × List K))
    (a : String) (k : K) (h : a ∉ m.map Prod.fst) : addrKeyCount m a k = 0 := by
  induction m with
  | nil => rfl
  | cons p rest ih =>
    simp only [List.map_cons, List.mem_cons] at h
    push_neg at h
    simp [addrKeyCount, h.1, ih h.2]

theorem addrKeyCount_nodup {K : Type} [DecidableEq K] (m : List (String × List K))
    (a : String) (k : K) (h : (m.map Prod.fst).Nodup) :
    addrKeyCount m a k = occ k ((alistGet m a).getD []) := by
  induction m with
  | nil => simp [addrKeyCount, alistGet, occ]
  | cons p rest ih =>
    simp only [List.map_cons, List.nodup_cons] at h
    by_cases hp : p.1 = a
    · have hrest : addrKeyCount rest a k = 0 :=
        addrKeyCount_not_mem rest a k (hp ▸ h.1)
      simp [addrKeyCount, alistGet, hp, hrest]
    · have hp2 : ¬ a = p.1 := fun hc => hp hc.symm
      simp [addrKeyCount, alistGet, hp, hp2, ih h.2]

theorem cnt_traverseCat (m : List (String × List Key)) (k : Key) (a : String)
    (h : (m.map Prod.fst).Nodup) :
    cntA (traverseCat m) k a = occ k ((alistGet m a).getD []) := by
  unfold traverseCat
  rw [cnt_traverseCat_aux m [] k a, addrKeyCount_nodup m a k h]
  simp [cntA, alistGet, occ]

/-- C9: for every `Subscribes.ByAddr` value whose three maps have no
duplicate addresses (the `HashMap` key invariant), `traverse_to_keys`
produces the `ByKey` inversion: in each of the three categories, an address
`a` occurs in the output list for key `k` exactly as many times as `k`
occurs in `a`'s input list (so the address lists agree up to ordering);
applied to a `ByKey` value, `traverse_to_keys` returns the three maps
unchanged. -/
theorem C9_subscribes_inversion (e r rr : List (String × List Key))
    (he : (e.map Prod.fst).Nodup) (hr : (r.map Prod.fst).Nodup)
    (hrr : (rr.map Prod.fst).Nodup) :
    (∀ (k : Key) (a : String),
      cntA (Subscribes.traverse_to_keys (Subscribes.ByAddr e r rr)).1 k a
        = occ k ((alistGet e a).getD []))
    ∧ (∀ (k : Key) (a : String),
      cntA (Subscribes.traverse_to_keys (Subscribes.ByAddr e r rr)).2.1 k a
        = occ k ((alistGet r a).getD []))
    ∧ (∀ (k : Key) (a : String),
      cntA (Subscribes.traverse_to_keys (Subscribes.ByAddr e r rr)).2.2 k a
        = occ k ((alistGet rr a).getD []))
    ∧ (∀ e2 r2 rr2 : List (Key × List String),
      Subscribes.traverse_to_keys (Subscribes.ByKey e2 r2 rr2) = (e2, r2, rr2)) := by
  refine ⟨?_, ?_, ?_, ?_⟩
  · intro k a
    exact cnt_traverseCat e k a he
  · intro k a
    exact cnt_traverseCat r k a hr
  · intro k a
    exact cnt_traverseCat rr k a hrr
  · intro e2 r2 rr2
    rfl

def wKeyA : Key := { action := "a1", service := "s", domain := "d" }

def wKeyB : Key := { action := "a2", service := "s", domain := "d" }

def wByAddr : List (String × List Key) := [("x", [wKeyA, wKeyB, wKeyA]), ("y", [wKeyA])]

theorem C9_subscribes_inversion_witness :
    (List.map (Prod.fst : String × List Key → String)
      [("x", [wKeyA, wKeyB, wKeyA]), ("y", [wKeyA])]).Nodup
    ∧ cntA (Subscribes.traverse_to_keys (Subscribes.ByAddr wByAddr [] [])).1 wKeyA "x"
        = occ wKeyA ((alistGet wByAddr "x").getD [])
    ∧ Subscribes.traverse_to_keys
        (Subscribes.ByKey [(wKeyA, ["x"])] [] []) = ([(wKeyA, ["x"])], [], []) :=
  ⟨by decide,
   (C9_subscribes_inversion wByAddr [] [] (by decide) (by decide) (by decide)).1 wKeyA "x",
   (C9_subscribes_inversion wByAddr [] [] (by decide) (by decide) (by decide)).2.2.2
     [(wKeyA, ["x"])] [] []⟩

/-! ## Hub server (`streaming-platform/src/simple/server.rs`)

The server imports `sp_dto::{MsgMeta, MsgKind, MsgSource}` from an older
sp-dto revision whose declarations are not under src/: that meta has a flat
`rx` destination field and a `source` field (no `route`), as also witnessed
by the flat meta in `proto.rs`. Its shape below is modelled from the
fields `server.rs` actually reads and writes. -/

/-- Connection role, assigned at handshake (`ClientKind`); `server.rs`
matches all three variants. -/
inductive ClientKind
  | App
  | Service
  | Hub
deriving DecidableEq

/-- `ServerMsg` control messages of the clients thread, `proto.rs`. The
`Sender` handle type is a parameter. -/
inductive ServerMsg (S : Type)
  | AddClient (addr : String) (sender : S)
  | RemoveClient (addr : String)
  | SendMsg (addr : String) (data : List Nat)
deriving DecidableEq

/-- Modelled from the spec: the component spec carried by the old
`MsgSource::Component`; `server.rs` assigns a `String` into its
`client_addr` field. Fields not touched by src/ are omitted except `addr`
(scenario S3 of the spec names it). -/
structure CmpSpecOld where
  addr : String
  client_addr : String
deriving DecidableEq

/-- Modelled from the spec: the old `MsgSource` tagged union; `server.rs`
matches `Component` and ignores every other variant. -/
inductive MsgSource
  | Component (spec : CmpSpecOld)
  | Service (addr : String)
deriving DecidableEq

/-- Modelled from the spec: the old `sp_dto::MsgMeta` used by `server.rs`,
with the flat `tx`/`rx` fields of the `proto.rs` era plus the `source`
field `server.rs` rewrites. -/
structure ServerMsgMeta where
  tx : String
  rx : String
  correlation_id : Option Uuid
  source : MsgSource
deriving DecidableEq

/-- Per-connection handler state: `self.addr`, `self.client_kind`, and
whether `self.link_magic_ball` is `Some` (a configured bridge). -/
structure WsConnState where
  addr : Option String
  client_kind : Option ClientKind
  hasLink : Bool

/-- A WebSocket message (`ws::Message`). -/
inductive WsMessage
  | Text (s : String)
  | Binary (data : List Nat)

/-- Result of the `on_message` handler: `OkDone` is `Ok(())`, `ErrIo` is
the `Err(ws::Error::new(Io(..)))` return on a truncated frame, `Panicked`
models `get_u32_be` reading past the end of a sub-4-byte buffer. -/
inductive HandlerOutcome
  | OkDone
  | ErrIo
  | Panicked
deriving DecidableEq

/-- Observable effects of one `on_message` call: control messages sent on
`self.tx`, frames sent up the bridge via `magic_ball.send_data`, and the
handler's return. -/
structure OnMessageEffects (S : Type) where
  ctl : List (ServerMsg S)
  bridge : List (List Nat)
  outcome : HandlerOutcome
deriving DecidableEq

/-- The App-branch meta rewrite: `msg_meta.tx = "AppHub"`, then if the
source is a `Component`, its `client_addr` is set to this connection's
address. -/
def rewriteAppMeta (meta : ServerMsgMeta) (connAddr : String) : ServerMsgMeta :=
  { meta with
    tx := "AppHub"
    source :=
      match meta.source with
      | MsgSource.Component spec =>
        MsgSource.Component { spec with client_addr := connAddr }
      | s => s }

/-- `WsServer::on_message`. Unauthorized connections (no `addr`), missing
`client_kind`, and text frames produce no effects; a binary frame is
length-checked (`len > data.len() - 4` returns an IO error), its meta is
decoded (decode failure is logged and dropped), and then the frame is
either re-authored and sent up the bridge (App) or forwarded as
`SendMsg(meta.rx, data)` (Service / Hub). -/
def onMessage {S : Type} (metaDec : List Nat → Option ServerMsgMeta)
    (metaEnc : ServerMsgMeta → List Nat) (st : WsConnState) (msg : WsMessage) :
    OnMessageEffects S :=
  match st.addr with
  | none => { ctl := [], bridge := [], outcome := HandlerOutcome.OkDone }
  | some addr =>
    match st.client_kind with
    | none => { ctl := [], bridge := [], outcome := HandlerOutcome.OkDone }
    | some ck =>
      match msg with
      | WsMessage.Text _ => { ctl := [], bridge := [], outcome := HandlerOutcome.OkDone }
      | WsMessage.Binary data =>
        if data.length < 4 then
          { ctl := [], bridge := [], outcome := HandlerOutcome.Panicked }
        else if data.length - 4 < getU32 data then
          { ctl := [], bridge := [], outcome := HandlerOutcome.ErrIo }
        else
          match metaDec ((data.take (getU32 data + 4)).drop 4) with
          | none => { ctl := [], bridge := [], outcome := HandlerOutcome.OkDone }
          | some meta =>
            match ck with
            | ClientKind.App =>
              if st.hasLink then
                { ctl := []
                  bridge := [putU32 ((metaEnc (rewriteAppMeta meta addr)).length % 4294967296)
                    ++ metaEnc (rewriteAppMeta meta addr) ++ data.drop (4 + getU32 data)]
                  outcome := HandlerOutcome.OkDone }
              else { ctl := [], bridge := [], outcome := HandlerOutcome.OkDone }
            | ClientKind.Service =>
              { ctl := [ServerMsg.SendMsg meta.rx data], bridge := []
                outcome := HandlerOutcome.OkDone }
            | ClientKind.Hub =>
              { ctl := [ServerMsg.SendMsg meta.rx data], bridge := []
                outcome := HandlerOutcome.OkDone }

/-- WebSocket close codes distinguished by `on_close`. -/
inductive CloseCode
  | Normal
  | Away
  | Other
deriving DecidableEq

/-- `WsServer::on_close`: matches on the close code with an empty body in
every branch — it emits no control message whatsoever. -/
def onClose {S : Type} (_st : WsConnState) (code : CloseCode) : List (ServerMsg S) :=
  match code with
  | CloseCode.Normal => []
  | CloseCode.Away => []
  | CloseCode.Other => []

/-- `HashMap::insert` on an association list: replace the value when the
key is present, append otherwise. -/
def alistInsert {K V : Type} [DecidableEq K] (l : List (K × V)) (k : K) (v : V) :
    List (K × V) :=
  match alistGet l k with
  | some _ => l.map (fun p => if p.1 = k then (p.1, v) else p)
  | none => l ++ [(k, v)]

/-- Table transition of one iteration of the clients-thread loop (the loop
body is identical in `start` and `start_with_link`): `AddClient` inserts,
`SendMsg` only reads, and everything else — `RemoveClient` included —
falls into the ignored `_ => {}` catch-all. -/
def clientsStep {S : Type} (table : List (String × S)) : ServerMsg S → List (String × S)
  | ServerMsg.AddClient addr sender => alistInsert table addr sender
  | ServerMsg.SendMsg _ _ => table
  | _ => table

/-- Transport sends performed by one iteration of the clients-thread loop:
`SendMsg` forwards the bytes to the sender registered for the address, or
silently drops them when the address is unknown. -/
def clientsSend {S : Type} (table : List (String × S)) : ServerMsg S → List (S × List Nat)
  | ServerMsg.SendMsg addr data =>
    match alistGet table addr with
    | some sender => [(sender, data)]
    | none => []
  | _ => []

def noServerMetaDec : List Nat → Option ServerMsgMeta := fun _ => none

def noServerMetaEnc : ServerMsgMeta → List Nat := fun _ => []

/-- A meta whose flat `rx` field is "b", delivered by a stub decoder. -/
def metaRxB : ServerMsgMeta :=
  { tx := "t", rx := "b", correlation_id := none, source := MsgSource.Service "t" }

def decRxB : List Nat → Option ServerMsgMeta := fun _ => some metaRxB

/-- C2 counterexample: on a Service-role connection, the 4-byte frame
`[0,0,0,0]` decodes to a meta with `rx = "b"`. Exactly one `SendMsg` is
emitted, but its destination is the flat `rx` field "b": with an address
table containing only "c", the destination is not an address reachable in
the table (the clients thread silently discards the frame), refuting the
claim that the destination is drawn from the first of `route.points` that
names a reachable address — the meta the server decodes has no
`route.points` at all. -/
theorem C2_counterexample :
    @onMessage Nat decRxB noServerMetaEnc
      { addr := some "s1", client_kind := some ClientKind.Service, hasLink := false }
      (WsMessage.Binary [0, 0, 0, 0])
      = { ctl := [ServerMsg.SendMsg "b" [0, 0, 0, 0]], bridge := []
          outcome := HandlerOutcome.OkDone }
    ∧ alistGet [("c", 0)] "b" = none
    ∧ clientsSend [("c", 0)] (ServerMsg.SendMsg "b" [0, 0, 0, 0]) = [] := by
  refine ⟨?_, ?_, ?_⟩
  · rfl
  · rfl
  · rfl

/-- C2 (amended): for every binary frame received on a Service- or Hub-role
connection whose meta parses successfully, the hub enqueues exactly one
`SendMsg` control message whose destination address is the meta's flat `rx`
field and whose byte content is the original frame bytes unchanged; the
clients thread then forwards those bytes to the sender registered for `rx`
and discards the frame when `rx` is not in the address table. -/
theorem C2_service_hub_forwarding {S : Type} (metaDec : List Nat → Option ServerMsgMeta)
    (metaEnc : ServerMsgMeta → List Nat) (st : WsConnState) (a : String)
    (ck : ClientKind) (data : List Nat) (meta : ServerMsgMeta)
    (haddr : st.addr = some a)
    (hck : st.client_kind = some ck)
    (hsvc : ck = ClientKind.Service ∨ ck = ClientKind.Hub)
    (h4 : ¬ data.length < 4)
    (hfit : ¬ data.length - 4 < getU32 data)
    (hdec : metaDec ((data.take (getU32 data + 4)).drop 4) = some meta) :
    @onMessage S metaDec metaEnc st (WsMessage.Binary data)
      = { ctl := [ServerMsg.SendMsg meta.rx data], bridge := []
          outcome := HandlerOutcome.OkDone }
    ∧ (∀ table : List (String × S), alistGet table meta.rx = none →
        clientsSend table (ServerMsg.SendMsg meta.rx data) = [])
    ∧ (∀ (table : List (String × S)) (sender : S),
        alistGet table meta.rx = some sender →
        clientsSend table (ServerMsg.SendMsg meta.rx data) = [(sender, data)]) := by
  refine ⟨?_, ?_, ?_⟩
  · simp only [onMessage, haddr, hck, if_neg h4, if_neg hfit, hdec]
    cases hsvc with
    | inl h => subst h; rfl
    | inr h => subst h; rfl
  · intro table htable
    simp only [clientsSend, htable]
  · intro table sender htable
    simp only [clientsSend, htable]

theorem C2_service_hub_forwarding_witness :
    @onMessage Nat decRxB noServerMetaEnc
      { addr := some "s1", client_kind := some ClientKind.Service, hasLink := false }
      (WsMessage.Binary [0, 0, 0, 0])
      = { ctl := [ServerMsg.SendMsg metaRxB.rx [0, 0, 0, 0]], bridge := []
          outcome := HandlerOutcome.OkDone }
    ∧ clientsSend [("b", 9)] (ServerMsg.SendMsg metaRxB.rx [0, 0, 0, 0]) = [(9, [0, 0, 0, 0])] :=
  ⟨(C2_service_hub_forwarding decRxB noServerMetaEnc
      { addr := some "s1", client_kind := some ClientKind.Service, hasLink := false }
      "s1" ClientKind.Service [0, 0, 0, 0] metaRxB rfl rfl (Or.inl rfl)
      (by decide) (by decide) rfl).1,
   (C2_service_hub_forwarding decRxB noServerMetaEnc
      { addr := some "s1", client_kind := some ClientKind.Service, hasLink := false }
      "s1" ClientKind.Service [0, 0, 0, 0] metaRxB rfl rfl (Or.inl rfl)
      (by decide) (by decide) rfl).2.2 [("b", 9)] 9 (by decide)⟩

/-- C3: for every binary frame received on an App-role connection when a
bridge is configured, whose meta parses successfully, exactly one frame is
forwarded up the bridge; it carries the re-encoded meta
`rewriteAppMeta meta a`, whose `tx` is the hub's symbolic name "AppHub" and
whose `client_addr` is this connection's address whenever the source is a
`Component`; and the bytes following the re-encoded meta
(`data.drop (4 + meta_len)`) equal byte-for-byte the bytes following the
original meta, while the new `meta_len` is the re-encoded meta's length. -/
theorem C3_app_bridge_rewrite {S : Type} (metaDec : List Nat → Option ServerMsgMeta)
    (metaEnc : ServerMsgMeta → List Nat) (st : WsConnState) (a : String)
    (data : List Nat) (meta : ServerMsgMeta)
    (haddr : st.addr = some a)
    (hck : st.client_kind = some ClientKind.App)
    (hlink : st.hasLink = true)
    (h4 : ¬ data.length < 4)
    (hfit : ¬ data.length - 4 < getU32 data)
    (hdec : metaDec ((data.take (getU32 data + 4)).drop 4) = some meta) :
    @onMessage S metaDec metaEnc st (WsMessage.Binary data)
      = { ctl := []
          bridge := [putU32 ((metaEnc (rewriteAppMeta meta a)).length % 4294967296)
            ++ metaEnc (rewriteAppMeta meta a) ++ data.drop (4 + getU32 data)]
          outcome := HandlerOutcome.OkDone }
    ∧ (rewriteAppMeta meta a).tx = "AppHub"
    ∧ (∀ spec : CmpSpecOld, meta.source = MsgSource.Component spec →
        (rewriteAppMeta meta a).source
          = MsgSource.Component { spec with client_addr := a }) := by
  refine ⟨?_, rfl, ?_⟩
  · simp only [onMessage, haddr, hck, if_neg h4, if_neg hfit, hdec, hlink, if_pos]
  · intro spec hsrc
    simp only [rewriteAppMeta, hsrc]

/-- Concrete witness data for the App-bridge rewrite: a meta whose source
is a `Component`, a stub codec, a 4-byte frame with two trailing bytes. -/
def metaCmp : ServerMsgMeta :=
  { tx := "t", rx := "", correlation_id := none,
    source := MsgSource.Component { addr := "c", client_addr := "" } }

def decCmp : List Nat → Option ServerMsgMeta := fun _ => some metaCmp

def encCmp : ServerMsgMeta → List Nat := fun _ => [1, 2, 3]

theorem C3_app_bridge_rewrite_witness :
    @onMessage Nat decCmp encCmp
      { addr := some "U", client_kind := some ClientKind.App, hasLink := true }
      (WsMessage.Binary [0, 0, 0, 0, 8, 9])
      = { ctl := []
          bridge := [putU32 ((encCmp (rewriteAppMeta metaCmp "U")).length % 4294967296)
            ++ encCmp (rewriteAppMeta metaCmp "U")
            ++ List.drop (4 + getU32 [0, 0, 0, 0, 8, 9]) [0, 0, 0, 0, 8, 9]]
          outcome := HandlerOutcome.OkDone }
    ∧ (rewriteAppMeta metaCmp "U").source
        = MsgSource.Component { addr := "c", client_addr := "U" } :=
  ⟨(@C3_app_bridge_rewrite Nat decCmp encCmp
      { addr := some "U", client_kind := some ClientKind.App, hasLink := true }
      "U" [0, 0, 0, 0, 8, 9] metaCmp rfl rfl rfl (by decide) (by decide) rfl).1,
   (@C3_app_bridge_rewrite Nat decCmp encCmp
      { addr := some "U", client_kind := some ClientKind.App, hasLink := true }
      "U" [0, 0, 0, 0, 8, 9] metaCmp rfl rfl rfl (by decide) (by decide) rfl).2.2
     { addr := "c", client_addr := "" } rfl⟩

/-- C5 (the code evaluated at the failing input): an admitted Service
connection with address "s1" closes; `on_close` emits no control message
at all (in particular no `RemoveClient("s1")`), and even if a
`RemoveClient("s1")` were delivered, the clients thread's catch-all leaves
the address table unchanged. -/
def stSvc : WsConnState :=
  { addr := some "s1", client_kind := some ClientKind.Service, hasLink := false }

theorem C5_on_close_emits_nothing :
    @onClose Nat stSvc CloseCode.Normal = []
    ∧ clientsStep [("s1", 0)] (ServerMsg.RemoveClient "s1") = [("s1", 0)] :=
  ⟨rfl, rfl⟩

/-- The truncated frame of scenario S6: declared meta length 1000 in a
100-byte buffer. -/
def truncatedFrame : List Nat := putU32 1000 ++ List.replicate 96 0

/-- C7 counterexample: on the S6 frame (`meta_len = 1000`, length 100) the
message handler does not complete without error — it returns the IO error
(on which the `ws` engine tears the connection down). No control message
is emitted. -/
theorem C7_counterexample :
    @onMessage Nat noServerMetaDec noServerMetaEnc
      { addr := some "s1", client_kind := some ClientKind.Service, hasLink := false }
      (WsMessage.Binary truncatedFrame)
      = { ctl := [], bridge := [], outcome := HandlerOutcome.ErrIo }
    ∧ HandlerOutcome.ErrIo ≠ HandlerOutcome.OkDone := by
  refine ⟨by decide, by decide⟩

/-- C7 (amended): when a binary frame's declared meta_len exceeds the
buffer length minus 4, the hub emits no control message and no bridge
frame, but the message handler returns an IO error — terminating the
connection per the transport's error policy — rather than completing
without error. -/
theorem C7_truncated_frame_errors {S : Type} (metaDec : List Nat → Option ServerMsgMeta)
    (metaEnc : ServerMsgMeta → List Nat) (st : WsConnState) (a : String)
    (ck : ClientKind) (data : List Nat)
    (haddr : st.addr = some a)
    (hck : st.client_kind = some ck)
    (h4 : ¬ data.length < 4)
    (hover : data.length - 4 < getU32 data) :
    @onMessage S metaDec metaEnc st (WsMessage.Binary data)
      = { ctl := [], bridge := [], outcome := HandlerOutcome.ErrIo } := by
  simp only [onMessage, haddr, hck, if_neg h4, if_pos hover]

theorem C7_truncated_frame_errors_witness :
    @onMessage Nat noServerMetaDec noServerMetaEnc
      { addr := some "s1", client_kind := some ClientKind.Service, hasLink := false }
      (WsMessage.Binary truncatedFrame)
      = { ctl := [], bridge := [], outcome := HandlerOutcome.ErrIo } :=
  C7_truncated_frame_errors noServerMetaDec noServerMetaEnc
    { addr := some "s1", client_kind := some ClientKind.Service, hasLink := false }
    "s1" ClientKind.Service truncatedFrame rfl rfl (by decide) (by decide)

theorem alistGet_setval {K V : Type} [DecidableEq K] (l : List (K × V)) (k k2 : K)
    (v : V) :
    alistGet (l.map (fun p => if p.1 = k then (p.1, v) else p)) k2
      = if k2 = k then (alistGet l k2).map (fun _ => v) else alistGet l k2 := by
  induction l with
  | nil => simp [alistGet]
  | cons p rest ih =>
    by_cases h1 : p.1 = k <;> by_cases h2 : p.1 = k2
    · have hk : k2 = k := by rw [← h2, h1]
      simp [alistGet, h1, h2, hk]
    · have hk : ¬ k2 = k := by
        intro hc
        exact h2 (by rw [h1, ← hc])
      have hk2 : ¬ k = k2 := fun hc => hk hc.symm
      simp [alistGet, h1, h2, hk, hk2, ih]
    · have hk : ¬ k2 = k := by
        intro hc
        exact h1 (by rw [h2, hc])
      simp [alistGet, h1, h2, hk, ih]
    · simp only [List.map_cons, if_neg h1, alistGet, if_neg h2, ih]

theorem alistGet_insert {K V : Type} [DecidableEq K] (l : List (K × V)) (k k2 : K)
    (v : V) :
    alistGet (alistInsert l k v) k2 = if k2 = k then some v else alistGet l k2 := by
  unfold alistInsert
  cases h : alistGet l k with
  | none =>
    rw [alistGet_append]
    by_cases hk : k2 = k
    · subst hk
      rw [h]
      simp [alistGet]
    · have hk2 : ¬ k = k2 := fun hc => hk hc.symm
      cases hg : alistGet l k2 <;> simp [hg, alistGet, hk, hk2]
  | some w =>
    rw [alistGet_setval]
    by_cases hk : k2 = k
    · subst hk
      rw [h]
      simp
    · simp [hk]

theorem clientsStep_keeps (S : Type) (table : List (String × S)) (m : ServerMsg S)
    (a : String) (h : ∃ s, alistGet table a = some s) :
    ∃ s, alistGet (clientsStep table m) a = some s := by
  obtain ⟨s, hs⟩ := h
  cases m with
  | AddClient addr sender =>
    simp only [clientsStep]
    rw [alistGet_insert table addr a sender]
    by_cases hk : a = addr
    · exact ⟨sender, by rw [if_pos hk]⟩
    · exact ⟨s, by rw [if_neg hk]; exact hs⟩
  | RemoveClient addr => exact ⟨s, hs⟩
  | SendMsg addr data => exact ⟨s, hs⟩

/-- C10: in the clients thread of `start` and `start_with_link`, the address
table never shrinks: `RemoveClient` and `SendMsg` leave the table unchanged
(`SendMsg` only reads it; `RemoveClient` falls into the ignored catch-all),
and along any sequence of control messages an address once present in the
table remains present. -/
theorem C10_clients_table_monotone {S : Type} :
    (∀ (table : List (String × S)) (a : String) (d : List Nat),
      clientsStep table (ServerMsg.RemoveClient a) = table
      ∧ clientsStep table (ServerMsg.SendMsg a d) = table)
    ∧ (∀ (table : List (String × S)) (msgs : List (ServerMsg S)) (a : String),
      (∃ s, alistGet table a = some s) →
      ∃ s, alistGet (msgs.foldl clientsStep table) a = some s) := by
  constructor
  · intro table a d
    exact ⟨rfl, rfl⟩
  · intro table msgs
    induction msgs generalizing table with
    | nil => intro a h; exact h
    | cons m rest ih =>
      intro a h
      exact ih (clientsStep table m) a (clientsStep_keeps S table m a h)

theorem C10_clients_table_monotone_witness :
    clientsStep [("s1", 0)] (ServerMsg.RemoveClient "s1") = [("s1", 0)]
    ∧ ∃ s, alistGet (List.foldl clientsStep [("s1", 0)]
        [ServerMsg.RemoveClient "s1", ServerMsg.SendMsg "s1" [1],
         ServerMsg.AddClient "b" 5]) "s1" = some s :=
  ⟨((@C10_clients_table_monotone Nat).1 [("s1", 0)] "s1" []).1,
   (@C10_clients_table_monotone Nat).2 [("s1", 0)]
     [ServerMsg.RemoveClient "s1", ServerMsg.SendMsg "s1" [1],
      ServerMsg.AddClient "b" 5] "s1" ⟨0, by decide⟩⟩

/-! ## Client runtime (`src/proto.rs`): `MagicBall2::rpc` -/

/-- The flat `MsgMeta` of `proto.rs`: `{ tx, rx, correlation_id }`. -/
structure ProtoMsgMeta where
  tx : String
  rx : String
  correlation_id : Option Uuid
deriving DecidableEq

/-- `ClientMsg` control messages posted to the correlator. The reply-sender
payload of `AddRpc` / `RpcDataResponse` is a channel endpoint, elided here:
the embedded `rpc` below, like the source, never reads the private channel
it registers, which is the content of claim C4. -/
inductive ClientMsg
  | AddRpc (cid : Uuid)
  | RemoveRpc (cid : Uuid)
  | RpcDataRequest (cid : Uuid)
  | RpcDataResponse (cid : Uuid)
deriving DecidableEq

/-- Observable effects of one `MagicBall2::rpc` call: control messages
posted on `self.rpc_tx` in order, frames written to the transport, and the
returned value (`none` models the early `Err(err)?` return). -/
structure RpcEffects where
  posted : List ClientMsg
  sent : List (List Nat)
  result : Option (ProtoMsgMeta × List Nat)
deriving DecidableEq

/-- `MagicBall2::rpc`. The shared receive channel `self.rx` is modelled by
the queue of messages it will deliver (empty = `recv()` returns `Err`, a
disconnected channel, on which `Err(err)?` returns early). The private
channel pair `(rpc_tx, rpc_rx)` created for the correlator is modelled by
the queue of messages the correlator would deliver to it — the code never
reads it. `serde_json::to_vec` on the flat meta is the parameter
`metaEnc`. -/
def MagicBall2.rpc (metaEnc : ProtoMsgMeta → List Nat) (selfAddr addr : String)
    (payload : List Nat) (correlation_id : Uuid)
    (rxQueue _privateQueue : List (ProtoMsgMeta × Nat × List Nat)) : RpcEffects :=
  let msg_meta : ProtoMsgMeta :=
    { tx := selfAddr, rx := addr, correlation_id := some correlation_id }
  let buf := putU32 ((metaEnc msg_meta).length % 4294967296) ++ metaEnc msg_meta ++ payload
  match rxQueue with
  | [] =>
    { posted := [ClientMsg.AddRpc correlation_id], sent := [buf], result := none }
  | (m, len, data) :: _ =>
    { posted := [ClientMsg.AddRpc correlation_id, ClientMsg.RemoveRpc correlation_id]
      sent := [buf]
      result := some (m, data.drop (len + 4)) }

/-- C4 (the code evaluated at the failing input): the generated correlation
id is 7 and the correct response for id 7 sits in the private reply channel
registered with the correlator, but the next message on the shared rx
channel is an unrelated one with correlation_id `none`; `rpc` returns that
unrelated message. It blocks on the shared channel, not on the registered
private reply channel, and the returned meta's correlation id differs from
the request's generated id. -/
theorem C4_rpc_reads_shared_channel :
    (MagicBall2.rpc (fun _ => [9]) "c1" "s1" [] 7
      [({ tx := "x", rx := "c1", correlation_id := none }, 0, [0, 0, 0, 0, 5])]
      [({ tx := "s1", rx := "c1", correlation_id := some 7 }, 0, [0, 0, 0, 0, 6])]).result
      = some ({ tx := "x", rx := "c1", correlation_id := none }, [5])
    ∧ (none : Option Uuid) ≠ some 7 := by
  refine ⟨rfl, by decide⟩

/-- C8 (the code evaluated at the failing input): when `self.rx.recv()`
fails (disconnected channel), the `Err(err)?` in the receive arm returns
early from `rpc` and `RemoveRpc(correlation_id)` is never posted — only
the `AddRpc` remains on the correlator channel. -/
theorem C8_rpc_skips_remove_on_error :
    (MagicBall2.rpc (fun _ => [9]) "c1" "s1" [] 7 [] []).posted = [ClientMsg.AddRpc 7]
    ∧ ClientMsg.RemoveRpc 7 ∉ [ClientMsg.AddRpc 7] := by
  refine ⟨rfl, by decide⟩
